import Mathlib

/-! congress-digest: the text-cleaning pipeline of `internal/printing/digest.go`

A shallow embedding of `FormatDigestText` and `FormatDigest` together with the
library functions they call (`strings.Split`, `strings.Join`, `strings.TrimSpace`,
`strings.HasPrefix`, `regexp.MatchString`, `time.Time.Format`, `time.Time.IsZero`).

A Go string is modelled as the list of its Unicode code points (the text is taken
to be valid UTF-8, which is what the regular-expression engine and `TrimSpace`
decode it to).
-/

namespace CongressDigest

/-- A Go string: the list of its code points. -/
abbrev Str := List Char

/-! ## Library functions of package `strings` and `unicode` -/

/-- Go `unicode.IsSpace`: the code points with the Unicode White_Space property. -/
def isSpace (c : Char) : Bool :=
  (9 ≤ c.toNat && c.toNat ≤ 13) || c.toNat == 32 || c.toNat == 0x85 || c.toNat == 0xA0
    || c.toNat == 0x1680 || (0x2000 ≤ c.toNat && c.toNat ≤ 0x200A)
    || c.toNat == 0x2028 || c.toNat == 0x2029 || c.toNat == 0x202F
    || c.toNat == 0x205F || c.toNat == 0x3000

/-- Go `strings.TrimSpace`: all leading and trailing white space removed. -/
def TrimSpace (s : Str) : Str :=
  (s.dropWhile isSpace).rdropWhile isSpace

/-- Go `strings.HasPrefix(s, p)`. -/
def HasPrefix (s p : Str) : Bool :=
  p.isPrefixOf s

/-- Go `strings.Split(s, "\n")`: the pieces of `s` between line feeds; never empty. -/
def Split : Str → List Str
  | [] => [[]]
  | c :: cs =>
    if c = '\n' then [] :: Split cs
    else
      match Split cs with
      | [] => [[c]]
      | l :: ls => (c :: l) :: ls

/-- Go `strings.Join(elems, "\n")`. -/
def Join : List Str → Str
  | [] => []
  | [l] => l
  | l :: l2 :: ls => l ++ '\n' :: Join (l2 :: ls)

/-! ## Regular expressions (package `regexp`, RE2 syntax) -/

/-- The fragment of RE2 syntax used by `artifactPatterns`. -/
inductive Re where
  /-- A literal character. -/
  | lit (c : Char)
  /-- A character class, given by its membership test. -/
  | cls (p : Char → Bool)
  /-- The assertion `^` (beginning of text). -/
  | bot
  /-- The assertion `$` (end of text; no multi-line flag is set). -/
  | eot
  /-- The empty expression, which matches the empty text. -/
  | empty
  /-- Concatenation. -/
  | seq (a b : Re)
  /-- Repetition `a*`. -/
  | star (a : Re)

/-- Concatenation of a list of expressions. -/
def Re.cat (rs : List Re) : Re :=
  rs.foldr Re.seq Re.empty

/-- The literal text `s`. -/
def Re.str (s : String) : Re :=
  Re.cat (s.toList.map Re.lit)

/-- Repetition `a+`. -/
def Re.plus (a : Re) : Re := Re.seq a (Re.star a)

/-- Repetition `a{2,}`. -/
def Re.atLeastTwo (a : Re) : Re := Re.seq a (Re.seq a (Re.star a))

/-- RE2 class `\s`, which is `[\t\n\f\r ]`. -/
def reSpace (c : Char) : Bool :=
  c.toNat == 9 || c.toNat == 10 || c.toNat == 12 || c.toNat == 13 || c.toNat == 32

/-- RE2 class `\S`. -/
def reNonSpace (c : Char) : Bool := !reSpace c

/-- RE2 class `\d`, which is `[0-9]`. -/
def reDigit (c : Char) : Bool := 48 ≤ c.toNat && c.toNat ≤ 57

/-- RE2 class `\w`, which is `[0-9A-Za-z_]`. -/
def reWord (c : Char) : Bool :=
  reDigit c || (65 ≤ c.toNat && c.toNat ≤ 90) || (97 ≤ c.toNat && c.toNat ≤ 122)
    || c.toNat == 95

/-- The class `[A-Z ]`. -/
def reUpperOrBlank (c : Char) : Bool :=
  (65 ≤ c.toNat && c.toNat ≤ 90) || c.toNat == 32

/-- A position of the matcher: the number of characters consumed so far and the
text that remains. -/
abbrev Pos := Nat × Str

/-- Iteration of a one-step matcher `f`, for `star`: zero or more rounds, each of
which consumes at least one character. -/
def Re.iter (f : Pos → List Pos) : Nat → Pos → List Pos
  | 0, st => [st]
  | n + 1, st =>
    st :: ((f st).filter (fun st2 => decide (st2.2.length < st.2.length))).flatMap (Re.iter f n)

/-- All positions at which a match of the expression that starts at `st` can end. -/
def Re.run : Re → Pos → List Pos
  | Re.lit c, st =>
    match st.2 with
    | [] => []
    | x :: xs => if x = c then [(st.1 + 1, xs)] else []
  | Re.cls p, st =>
    match st.2 with
    | [] => []
    | x :: xs => if p x then [(st.1 + 1, xs)] else []
  | Re.bot, st => if st.1 = 0 then [st] else []
  | Re.eot, st => if st.2 = [] then [st] else []
  | Re.empty, st => [st]
  | Re.seq a b, st => (Re.run a st).flatMap (Re.run b)
  | Re.star a, st => Re.iter (Re.run a) (st.2.length + 1) st

/-- Go `(*Regexp).MatchString`: the text contains some match of the expression. -/
def MatchString (re : Re) (s : Str) : Bool :=
  (List.range (s.length + 1)).any (fun i => !(Re.run re (i, s.drop i)).isEmpty)

/-! ## `FormatDigestText` -/

/-- The list `artifactPatterns` of `FormatDigestText`, in source order. -/
def artifactPatterns : List Re :=
  [ Re.cat [Re.bot, Re.str "VerDate"],
    Re.cat [Re.bot, Re.str "DMWilson on DSK"],
    Re.cat [Re.bot, Re.str "E:", Re.plus (Re.cls reNonSpace)],
    Re.cat [Re.bot, Re.star (Re.cls reSpace), Re.str "Page ", Re.plus (Re.cls reWord)],
    Re.cat [Re.bot, Re.star (Re.cls reSpace), Re.lit 'D', Re.plus (Re.cls reDigit),
      Re.star (Re.cls reSpace), Re.eot],
    Re.cat [Re.bot, Re.star (Re.cls reSpace), Re.eot],
    Re.cat [Re.bot, Re.str "Syntax Warning:"],
    Re.cat [Re.bot, Re.atLeastTwo (Re.cls reUpperOrBlank), Re.eot],
    Re.cat [Re.bot, Re.str "E PL", Re.eot],
    Re.cat [Re.bot, Re.str "M", Re.eot],
    Re.cat [Re.bot, Re.str "UR", Re.eot],
    Re.cat [Re.bot, Re.str "IB", Re.star (Re.cls reSpace), Re.str "NU", Re.eot],
    Re.cat [Re.bot, Re.str "U", Re.eot],
    Re.cat [Re.bot, Re.str "S", Re.eot] ]

/-- The constant `stopAt`. -/
def stopAt : Str := "Congressional Record".toList

/-- The inner loop over `artifactPatterns`: `skip` is set when some pattern
matches the (untrimmed) line. -/
def skipLine (line : Str) : Bool :=
  artifactPatterns.any (fun re => MatchString re line)

/-- The first loop of `FormatDigestText`, over `lines`, with the slice `cleaned`
built so far: it ends at the stop line, skips the artifact lines and appends the
trimmed form of every other line. -/
def cleanLoop : List Str → List Str → List Str
  | [], cleaned => cleaned
  | line :: rest, cleaned =>
    if TrimSpace line = stopAt then cleaned
    else if skipLine line then cleanLoop rest cleaned
    else cleanLoop rest (cleaned ++ [TrimSpace line])

/-- The second loop of `FormatDigestText`, over `cleaned`, with the flag
`lastBlank` and the slice `result` built so far. -/
def blankLoop : List Str → Bool → List Str → List Str
  | [], _, result => result
  | line :: rest, lastBlank, result =>
    if line = [] then
      blankLoop rest true (if !lastBlank then result ++ [[]] else result)
    else
      blankLoop rest false (result ++ [line])

/-- The list `sectionHeaders`, in source order. -/
def sectionHeaders : List Str :=
  [ "Daily Digest".toList,
    "Senate".toList,
    "House of Representatives".toList,
    "Joint Meetings".toList,
    "Committee Meetings".toList,
    "Extensions of Remarks".toList,
    "Next Meeting of the SENATE".toList,
    "Next Meeting of the HOUSE OF REPRESENTATIVES".toList ]

/-- The inner loop of the third loop: starting from the slot `result[i] = line`,
every header that is a prefix of `line` stores `"## " + line` in the slot. -/
def headerLoop (line : Str) : List Str → Str → Str
  | [], slot => slot
  | header :: rest, slot =>
    if HasPrefix line header then headerLoop line rest ("## ".toList ++ line)
    else headerLoop line rest slot

/-- The body of the third loop for one element `line` of `result`. -/
def promoteLine (line : Str) : Str :=
  headerLoop line sectionHeaders line

/-- The third loop of `FormatDigestText`, over `result`. -/
def promoteLoop (result : List Str) : List Str :=
  result.map promoteLine

/-- The slice `result` of `FormatDigestText` as it is handed to `strings.Join`. -/
def FormatDigestLines (raw : Str) : List Str :=
  promoteLoop (blankLoop (cleanLoop (Split raw) []) false [])

/-- The function `FormatDigestText` of `printing/digest.go`. -/
def FormatDigestText (raw : Str) : Str :=
  Join (FormatDigestLines raw)

/-! ## Stage-by-stage reading of the three loops -/

/-- The test of the first loop that lets it go on: the trimmed line is not `stopAt`. -/
def notStop (line : Str) : Bool :=
  decide (TrimSpace line ≠ stopAt)

/-- The lines before the stop line: the first `k` lines, `k` the index of the first
line whose trimmed form is `stopAt` (all the lines when there is none). -/
def beforeStop (lines : List Str) : List Str :=
  lines.take (lines.findIdx (fun l => decide (TrimSpace l = stopAt)))

/-- Truncation, filtering and trimming as a composition of list operations. -/
def cleanLines (lines : List Str) : List Str :=
  (((lines.takeWhile notStop).filter (fun l => !skipLine l)).map TrimSpace)

/-- Blank-run collapsing in the words of the specification: every line that is not
empty is emitted, and of a run of empty lines only the first; `lastBlank` tells
whether the line before was empty. -/
def collapse : Bool → List Str → List Str
  | _, [] => []
  | lastBlank, line :: rest =>
    if line = [] then
      if lastBlank then collapse true rest else [] :: collapse true rest
    else line :: collapse false rest

/-- The heading marker. -/
def marker : Str := "## ".toList

/-- The words of the specification for heading promotion: the marker is put in
front of a line that starts with one of the labels, once. -/
def promoteSpec (line : Str) : Str :=
  if sectionHeaders.any (fun h => HasPrefix line h) then marker ++ line else line

/-- The line has neither leading nor trailing white space. -/
def IsTrimmed (s : Str) : Bool :=
  s.head?.all (fun c => !isSpace c) && s.getLast?.all (fun c => !isSpace c)

/-- Two neighbouring lines are not both empty. -/
def notBothBlank (a b : Str) : Prop :=
  ¬ (a = [] ∧ b = [])

/-- The text of a list of lines given as string literals. -/
def ofLines (ls : List String) : Str :=
  Join (ls.map String.toList)

/-! ## `FormatDigest` -/

/-- The type `time.Time`: an instant, as the `int64` count of seconds and the
nanoseconds since January 1, year 1, 00:00:00 UTC, and the offset east of UTC of
its location at that instant (an `int`). -/
structure Time where
  /-- Seconds since January 1, year 1, 00:00:00 UTC. -/
  sec : Int
  /-- Nanoseconds within the second. -/
  nsec : Nat
  /-- Offset of the location east of UTC, in seconds. -/
  offset : Int
  /-- The seconds are an `int64`. -/
  sec_range : -9223372036854775808 ≤ sec ∧ sec ≤ 9223372036854775807
  /-- The nanoseconds are below one second. -/
  nsec_range : nsec < 1000000000
  /-- The offset is an `int`. -/
  offset_range : -9223372036854775808 ≤ offset ∧ offset ≤ 9223372036854775807

/-- Go `Time.IsZero`: the instant is January 1, year 1, 00:00:00 UTC. -/
def Time.IsZero (t : Time) : Bool :=
  t.sec == 0 && t.nsec == 0

/-- Go `Time.absSec` (Go 1.23 and later): the seconds in the location of the time,
counted from March 1 of the year -292277022400, as a `uint64`: the sum wraps
modulo `2^64`. -/
def Time.abs (t : Time) : Nat :=
  ((t.sec + t.offset + 9223371966606163200) % 18446744073709551616).toNat

/-- Year, month and day of the proleptic Gregorian calendar for a number of days
counted from January 1, year 1. -/
def civilFromDays (d : Int) : Int × Int × Int :=
  let z := d + 306
  let era := z / 146097
  let doe := z - era * 146097
  let yoe := (doe - doe / 1460 + doe / 36524 - doe / 146096) / 365
  let doy := doe - (365 * yoe + yoe / 4 - yoe / 100)
  let mp := (5 * doy + 2) / 153
  let day := doy - (153 * mp + 2) / 5 + 1
  let month := if mp < 10 then mp + 3 else mp - 9
  let year := yoe + era * 400 + (if month ≤ 2 then 1 else 0)
  (year, month, day)

/-- Go `Time.Date`: the date of the absolute day `abs / 86400`; the absolute day
106751990354238 is January 1, year 1. -/
def Time.Date (t : Time) : Int × Int × Int :=
  civilFromDays (((t.abs / 86400 : Nat) : Int) - 106751990354238)

/-- Leap years of the Gregorian calendar. -/
def isLeap (y : Int) : Bool :=
  decide (y % 4 = 0) && (decide (y % 100 ≠ 0) || decide (y % 400 = 0))

/-- The number of days of month `m` of year `y`. -/
def daysIn (y m : Int) : Int :=
  if m = 2 then (if isLeap y then 29 else 28)
  else if m = 4 ∨ m = 6 ∨ m = 9 ∨ m = 11 then 30 else 31

/-- The number of days of year `y` before its month `m`: the sum of the lengths of
the months before. -/
def daysBeforeMonth (y m : Int) : Int :=
  ((List.range (m - 1).toNat).map (fun k : Nat => daysIn y (k + 1))).sum

/-- The number of days from January 1, year 1 to January 1 of year `y`. -/
def daysBeforeYear (y : Int) : Int :=
  365 * (y - 1) + (y - 1) / 4 - (y - 1) / 100 + (y - 1) / 400

/-- The number of days from January 1, year 1 to day `d` of month `m` of year `y`. -/
def dayNumber (y m d : Int) : Int :=
  daysBeforeYear y + daysBeforeMonth y m + (d - 1)

/-- The decimal digit character of a number between 0 and 9. -/
def digit (x : Int) : Char :=
  Nat.digitChar x.toNat

/-- The words `YYYY-MM-DD` of the specification: four digits, a hyphen, two
digits, a hyphen, two digits. -/
def isYMD (s : Str) : Bool :=
  match s with
  | [y3, y2, y1, y0, h1, m1, m0, h2, d1, d0] =>
    y3.isDigit && y2.isDigit && y1.isDigit && y0.isDigit && h1 == '-'
      && m1.isDigit && m0.isDigit && h2 == '-' && d1.isDigit && d0.isDigit
  | _ => false

/-- Go `appendInt` of package `time`: the decimal digits of `x`, with a sign when
negative, padded with zeros to `width` digits; fields of two and of four digits
are written directly. -/
def appendInt (x : Int) (width : Nat) : Str :=
  let sign : Str := if x < 0 then ['-'] else []
  let u := x.natAbs
  if width = 2 ∧ u < 100 then
    sign ++ [Nat.digitChar (u / 10), Nat.digitChar (u % 10)]
  else if width = 4 ∧ u < 10000 then
    sign ++ [Nat.digitChar (u / 100 / 10), Nat.digitChar (u / 100 % 10),
      Nat.digitChar (u % 100 / 10), Nat.digitChar (u % 100 % 10)]
  else
    sign ++ List.replicate (width - (Nat.toDigits 10 u).length) '0' ++ Nat.toDigits 10 u

/-- Go `Time.Format` for the layout `"2006-01-02"`. -/
def Time.Format (t : Time) : Str :=
  appendInt t.Date.1 4 ++ '-' :: appendInt t.Date.2.1 2 ++ '-' :: appendInt t.Date.2.2 2

/-- The struct `DailyDigest` of `congress/models.go`. -/
structure DailyDigest where
  /-- Field `Congress`. -/
  Congress : Str
  /-- Field `Issue`. -/
  Issue : Str
  /-- Field `PublishDate`. -/
  PublishDate : Time
  /-- Field `PDFUrl`. -/
  PDFUrl : Str

/-- The function `FormatDigest` of `printing/digest.go`. -/
def FormatDigest (d : DailyDigest) : Str :=
  let date := d.PublishDate.Format
  let date := if d.PublishDate.IsZero then "(unknown date)".toList else date
  let out := "# Congress.gov Daily Digest\n\n".toList
  let out := out ++ ("**Issue:** ".toList ++ d.Issue ++ "\n".toList)
  let out := out ++ ("**PublishDate:** ".toList ++ date ++ "\n".toList)
  let out := if d.PDFUrl ≠ [] then out ++ ("**PDFUrl:** ".toList ++ d.PDFUrl ++ "\n".toList) else out
  out

/-! ## `Split` and `Join` -/

theorem Split_ne_nil (s : Str) : Split s ≠ [] := by
  cases s with
  | nil => simp [Split]
  | cons c cs =>
    unfold Split
    split
    · simp
    · split <;> simp

theorem Split_no_newline (s : Str) : ∀ l ∈ Split s, '\n' ∉ l := by
  induction s with
  | nil => simp [Split]
  | cons c cs ih =>
    unfold Split
    split
    · intro l hl
      rcases List.mem_cons.mp hl with h | h
      · simp [h]
      · exact ih l h
    · rename_i hc
      split
      · intro l hl
        simp only [List.mem_singleton] at hl
        subst hl
        simpa using Ne.symm hc
      · rename_i l0 ls heq
        intro l hl
        rw [heq] at ih
        rcases List.mem_cons.mp hl with h | h
        · subst h
          have h0 := ih l0 (List.mem_cons_self _ _)
          simp only [List.mem_cons, not_or]
          exact ⟨Ne.symm hc, h0⟩
        · exact ih l (List.mem_cons_of_mem _ h)

theorem Join_cons (l : Str) (ls : List Str) (h : ls ≠ []) :
    Join (l :: ls) = l ++ '\n' :: Join ls := by
  cases ls with
  | nil => exact absurd rfl h
  | cons l2 ls => rfl

theorem Join_Split (s : Str) : Join (Split s) = s := by
  induction s with
  | nil => simp [Split, Join]
  | cons c cs ih =>
    unfold Split
    split
    · rename_i hc
      rw [Join_cons _ _ (Split_ne_nil cs), ih, hc]
      rfl
    · split
      · rename_i heq
        exact absurd heq (Split_ne_nil cs)
      · rename_i l0 ls heq
        rw [heq] at ih
        cases ls with
        | nil =>
          simp only [Join] at ih ⊢
          rw [ih]
        | cons l2 ls2 =>
          simp only [Join] at ih ⊢
          rw [← ih]
          rfl

theorem Split_of_no_newline (l : Str) (h : '\n' ∉ l) : Split l = [l] := by
  induction l with
  | nil => rfl
  | cons c cs ih =>
    simp only [List.mem_cons, not_or] at h
    unfold Split
    rw [if_neg (Ne.symm h.1), ih h.2]

theorem Split_append_newline (l s : Str) (h : '\n' ∉ l) :
    Split (l ++ '\n' :: s) = l :: Split s := by
  induction l with
  | nil => simp [Split]
  | cons c cs ih =>
    simp only [List.mem_cons, not_or] at h
    rw [List.cons_append]
    conv_lhs => unfold Split
    rw [if_neg (Ne.symm h.1), ih h.2]

theorem Split_Join (ls : List Str) (hne : ls ≠ []) (h : ∀ l ∈ ls, '\n' ∉ l) :
    Split (Join ls) = ls := by
  induction ls with
  | nil => exact absurd rfl hne
  | cons l rest ih =>
    cases rest with
    | nil => exact Split_of_no_newline l (h l (List.mem_cons_self _ _))
    | cons l2 rest2 =>
      rw [Join_cons _ _ (List.cons_ne_nil _ _),
        Split_append_newline _ _ (h l (List.mem_cons_self _ _)),
        ih (List.cons_ne_nil _ _) (fun x hx => h x (List.mem_cons_of_mem _ hx))]

/-! ## The loops as list operations -/

theorem cleanLoop_eq (lines cleaned : List Str) :
    cleanLoop lines cleaned = cleaned ++ cleanLines lines := by
  induction lines generalizing cleaned with
  | nil => simp [cleanLoop, cleanLines]
  | cons line rest ih =>
    unfold cleanLoop
    by_cases hs : TrimSpace line = stopAt
    · simp [hs, cleanLines, notStop]
    · rw [if_neg hs]
      by_cases hk : skipLine line = true
      · rw [if_pos hk, ih]
        simp [cleanLines, notStop, hs, hk]
      · rw [if_neg hk, ih]
        simp [cleanLines, notStop, hs, hk]

theorem blankLoop_eq (cleaned : List Str) (lastBlank : Bool) (result : List Str) :
    blankLoop cleaned lastBlank result = result ++ collapse lastBlank cleaned := by
  induction cleaned generalizing lastBlank result with
  | nil => simp [blankLoop, collapse]
  | cons line rest ih =>
    unfold blankLoop collapse
    by_cases hl : line = []
    · cases lastBlank <;> simp [hl, ih]
    · simp [hl, ih]

theorem headerLoop_eq (line : Str) (hs : List Str) (slot : Str) :
    headerLoop line hs slot
      = if hs.any (fun h => HasPrefix line h) then marker ++ line else slot := by
  induction hs generalizing slot with
  | nil => simp [headerLoop]
  | cons h rest ih =>
    unfold headerLoop
    by_cases hp : HasPrefix line h = true
    · rw [if_pos hp, ih]
      simp [hp, marker]
    · rw [if_neg hp, ih]
      simp [hp]

theorem promoteLine_eq (line : Str) : promoteLine line = promoteSpec line := by
  unfold promoteLine promoteSpec
  rw [headerLoop_eq]

theorem FormatDigestLines_eq (raw : Str) :
    FormatDigestLines raw = (collapse false (cleanLines (Split raw))).map promoteSpec := by
  unfold FormatDigestLines promoteLoop
  rw [cleanLoop_eq, blankLoop_eq]
  simp only [List.nil_append]
  exact List.map_congr_left (fun l _ => promoteLine_eq l)

/-! ## `TrimSpace` -/

theorem TrimSpace_nil : TrimSpace [] = [] := by
  simp [TrimSpace]

theorem TrimSpace_head (s : Str) (c : Char) (r : Str) (h : TrimSpace s = c :: r) :
    isSpace c = false := by
  have hp : TrimSpace s <+: s.dropWhile isSpace := List.rdropWhile_prefix _ _
  obtain ⟨v, hv⟩ := hp
  have hd := List.head?_dropWhile_not isSpace s
  rw [← hv, h] at hd
  simpa using hd

theorem TrimSpace_last (s : Str) (c : Char) (r : Str) (h : TrimSpace s = r ++ [c]) :
    isSpace c = false := by
  have hne : (s.dropWhile isSpace).rdropWhile isSpace ≠ [] := by
    have h2 : (s.dropWhile isSpace).rdropWhile isSpace = r ++ [c] := h
    rw [h2]
    simp
  have hl := List.rdropWhile_last_not isSpace (s.dropWhile isSpace) hne
  have h2 : (s.dropWhile isSpace).rdropWhile isSpace = r ++ [c] := h
  simp only [h2, List.getLast_append_singleton] at hl
  simpa using hl

theorem IsTrimmed_iff (s : Str) :
    IsTrimmed s = true ↔
      (∀ c r, s = c :: r → isSpace c = false) ∧ (∀ c r, s = r ++ [c] → isSpace c = false) := by
  unfold IsTrimmed
  rw [Bool.and_eq_true]
  constructor
  · rintro ⟨h1, h2⟩
    refine ⟨?_, ?_⟩
    · intro c r hs
      subst hs
      simpa using h1
    · intro c r hs
      subst hs
      simpa using h2
  · rintro ⟨h1, h2⟩
    refine ⟨?_, ?_⟩
    · cases s with
      | nil => rfl
      | cons c r => simpa using h1 c r rfl
    · rcases List.eq_nil_or_concat s with hs | ⟨r, c, hs⟩
      · subst hs
        rfl
      · rw [List.concat_eq_append] at hs
        subst hs
        simpa using h2 c r rfl

theorem TrimSpace_isTrimmed (s : Str) : IsTrimmed (TrimSpace s) = true :=
  (IsTrimmed_iff _).mpr ⟨fun c r h => TrimSpace_head s c r h, fun c r h => TrimSpace_last s c r h⟩

theorem TrimSpace_of_isTrimmed (s : Str) (h : IsTrimmed s = true) : TrimSpace s = s := by
  obtain ⟨h1, h2⟩ := (IsTrimmed_iff s).mp h
  have hd : s.dropWhile isSpace = s := by
    cases s with
    | nil => rfl
    | cons c r =>
      have := h1 c r rfl
      simp [List.dropWhile, this]
  unfold TrimSpace
  rw [hd]
  rcases List.eq_nil_or_concat s with hs | ⟨r, c, hs⟩
  · subst hs
    simp
  · rw [List.concat_eq_append] at hs
    have hc := h2 c r hs
    subst hs
    exact List.rdropWhile_concat_neg isSpace r c (by simp [hc])

theorem TrimSpace_idem (s : Str) : TrimSpace (TrimSpace s) = TrimSpace s :=
  TrimSpace_of_isTrimmed _ (TrimSpace_isTrimmed s)

theorem rdropWhile_append_rtakeWhile (p : Char → Bool) (t : Str) :
    t.rdropWhile p ++ t.rtakeWhile p = t := by
  unfold List.rdropWhile List.rtakeWhile
  rw [← List.reverse_append, List.takeWhile_append_dropWhile, List.reverse_reverse]

theorem TrimSpace_decomp (s : Str) :
    ∃ a b : Str, (∀ c ∈ a, isSpace c = true) ∧ (∀ c ∈ b, isSpace c = true)
      ∧ s = a ++ TrimSpace s ++ b := by
  refine ⟨s.takeWhile isSpace, (s.dropWhile isSpace).rtakeWhile isSpace, ?_, ?_, ?_⟩
  · intro c hc
    exact List.mem_takeWhile_imp hc
  · intro c hc
    exact List.mem_rtakeWhile_imp hc
  · unfold TrimSpace
    rw [List.append_assoc, rdropWhile_append_rtakeWhile, List.takeWhile_append_dropWhile]

/-! ## Blank-run collapsing -/

theorem collapse_sublist (b : Bool) (ls : List Str) : List.Sublist (collapse b ls) ls := by
  induction ls generalizing b with
  | nil => simp [collapse]
  | cons l rest ih =>
    unfold collapse
    by_cases hl : l = []
    · cases b
      · simp only [hl, if_true, Bool.false_eq_true, if_false]
        exact (ih true).cons₂ _
      · simp only [hl, if_true]
        exact (ih true).cons _
    · simp only [hl, if_false]
      exact (ih false).cons₂ _

theorem collapse_true_head (ls : List Str) (x : Str)
    (h : (collapse true ls).head? = some x) : x ≠ [] := by
  induction ls with
  | nil => simp [collapse] at h
  | cons l rest ih =>
    unfold collapse at h
    by_cases hl : l = []
    · simp only [hl, if_true] at h
      exact ih h
    · simp only [hl, if_false, List.head?_cons, Option.some.injEq] at h
      exact h ▸ hl

theorem collapse_chain (b : Bool) (ls : List Str) :
    List.Chain' notBothBlank (collapse b ls) := by
  induction ls generalizing b with
  | nil => simp [collapse]
  | cons l rest ih =>
    unfold collapse
    by_cases hl : l = []
    · cases b
      · simp only [hl, if_true, Bool.false_eq_true, if_false]
        refine (ih true).cons' ?_
        intro y hy
        exact fun hb => collapse_true_head rest y hy hb.2
      · simp only [hl, if_true]
        exact ih true
    · simp only [hl, if_false]
      refine (ih false).cons' ?_
      intro y _
      exact fun hb => hl hb.1

theorem collapse_of_no_blank (b : Bool) (ls : List Str) (h : [] ∉ ls) :
    collapse b ls = ls := by
  induction ls generalizing b with
  | nil => simp [collapse]
  | cons l rest ih =>
    simp only [List.mem_cons, not_or] at h
    unfold collapse
    rw [if_neg (Ne.symm h.1), ih false h.2]

theorem mem_collapse (b : Bool) (ls : List Str) (x : Str) (hx : x ∈ ls) :
    x ∈ collapse b ls ∨ (b = true ∧ x = []) := by
  induction ls generalizing b with
  | nil => simp at hx
  | cons l rest ih =>
    unfold collapse
    rcases List.mem_cons.mp hx with h | h
    · subst h
      by_cases hl : x = []
      · cases b <;> simp [hl]
      · simp [hl]
    · by_cases hl : l = []
      · rcases ih true h with h1 | ⟨_, h2⟩
        · cases b <;> simp [hl, h1]
        · cases b <;> simp [hl, h2]
      · rcases ih false h with h1 | ⟨h2, _⟩
        · simp [hl, h1]
        · simp at h2

/-! ## Heading promotion -/

theorem skipLine_nil : skipLine [] = true := by decide

theorem TrimSpace_nil_ne_stopAt : TrimSpace [] ≠ stopAt := by decide

theorem header_first_char (l : Str) (h : sectionHeaders.any (fun p => HasPrefix l p) = true) :
    ∃ c r, l = c :: r ∧ c ≠ '#' ∧ isSpace c = false := by
  cases l with
  | nil => exact absurd h (by decide)
  | cons c r =>
    refine ⟨c, r, rfl, ?_⟩
    simp only [sectionHeaders, HasPrefix, String.toList, List.any_cons, List.isPrefixOf,
      List.any_nil, Bool.or_false, Bool.or_eq_true, Bool.and_eq_true, beq_iff_eq] at h
    rcases h with h | h | h | h | h | h | h | h <;>
      · have hc := h.1
        subst hc
        exact ⟨by decide, by decide⟩

theorem promoteSpec_cases (l : Str) :
    (sectionHeaders.any (fun p => HasPrefix l p) = true ∧ promoteSpec l = marker ++ l)
      ∨ (sectionHeaders.any (fun p => HasPrefix l p) = false ∧ promoteSpec l = l) := by
  unfold promoteSpec
  by_cases h : sectionHeaders.any (fun p => HasPrefix l p) = true
  · left
    exact ⟨h, by rw [if_pos h]⟩
  · right
    exact ⟨by simpa using h, by rw [if_neg h]⟩

theorem promoteSpec_marker (l : Str) : promoteSpec (marker ++ l) = marker ++ l := by
  rcases promoteSpec_cases (marker ++ l) with ⟨h, _⟩ | ⟨_, h⟩
  · obtain ⟨c, r, hc, hne, _⟩ := header_first_char _ h
    have : c = '#' := by
      have h2 : ('#' :: '#' :: ' ' :: l) = c :: r := hc
      exact (List.cons.inj h2).1.symm
    exact absurd this hne
  · exact h

theorem promoteSpec_idem (l : Str) : promoteSpec (promoteSpec l) = promoteSpec l := by
  rcases promoteSpec_cases l with ⟨_, h⟩ | ⟨_, h⟩
  · rw [h, promoteSpec_marker]
  · rw [h, h]

theorem promoteSpec_eq_nil_iff (l : Str) : promoteSpec l = [] ↔ l = [] := by
  rcases promoteSpec_cases l with ⟨_, h⟩ | ⟨_, h⟩
  · rw [h]
    constructor
    · intro h2
      exact absurd h2 (by simp [marker, String.toList])
    · intro h2
      subst h2
      exact absurd h (by decide)
  · rw [h]

theorem promoteSpec_ne_stopAt (l : Str) (h : l ≠ stopAt) : promoteSpec l ≠ stopAt := by
  rcases promoteSpec_cases l with ⟨_, h2⟩ | ⟨_, h2⟩
  · rw [h2]
    intro h3
    have h4 : ('#' :: '#' :: ' ' :: l) = 'C' :: "ongressional Record".toList := h3
    exact absurd (List.cons.inj h4).1 (by decide)
  · rw [h2]
    exact h

theorem promoteSpec_isTrimmed (l : Str) (h : IsTrimmed l = true) :
    IsTrimmed (promoteSpec l) = true := by
  rcases promoteSpec_cases l with ⟨hp, h2⟩ | ⟨_, h2⟩
  · rw [h2]
    obtain ⟨c, r, hc, _, _⟩ := header_first_char _ hp
    obtain ⟨_, hlast⟩ := (IsTrimmed_iff l).mp h
    refine (IsTrimmed_iff _).mpr ⟨?_, ?_⟩
    · intro c2 r2 h3
      have h4 : ('#' :: '#' :: ' ' :: l) = c2 :: r2 := h3
      rw [← (List.cons.inj h4).1]
      decide
    · intro c2 r2 h3
      rcases List.eq_nil_or_concat r with hr | ⟨r3, c3, hr⟩
      · subst hr
        subst hc
        have h4 : ['#', '#', ' '] ++ [c] = r2 ++ [c2] := h3
        have h5 := List.append_inj_right' h4 rfl
        have h6 : c = c2 := by simpa using h5
        exact hlast c2 [] (by rw [h6]; rfl)
      · rw [List.concat_eq_append] at hr
        subst hr
        subst hc
        have h4 : (marker ++ c :: r3) ++ [c3] = r2 ++ [c2] := by
          rw [← h3]
          simp
        have h5 := List.append_inj_right' h4 rfl
        have h6 : c3 = c2 := by simpa using h5
        exact hlast c2 (c :: r3) (by rw [h6]; rfl)
  · rw [h2]
    exact h

theorem promoteSpec_no_newline (l : Str) (h : '\n' ∉ l) : '\n' ∉ promoteSpec l := by
  rcases promoteSpec_cases l with ⟨_, h2⟩ | ⟨_, h2⟩
  · rw [h2]
    intro h3
    rcases List.mem_append.mp h3 with h4 | h4
    · exact absurd h4 (by decide)
    · exact h h4
  · rw [h2]
    exact h

/-! ## Truncation, filtering and trimming -/

theorem beforeStop_eq (ls : List Str) : beforeStop ls = ls.takeWhile notStop := by
  unfold beforeStop
  rw [List.takeWhile_eq_take_findIdx_not]
  congr 2
  funext l
  simp [notStop]

theorem cleanLines_beforeStop (ls : List Str) : cleanLines (beforeStop ls) = cleanLines ls := by
  rw [beforeStop_eq]
  unfold cleanLines
  rw [List.takeWhile_idem]

theorem cleanLines_eq (ls : List Str) :
    cleanLines ls = ((beforeStop ls).filter (fun l => !skipLine l)).map TrimSpace := by
  rw [beforeStop_eq]
  rfl

theorem mem_cleanLines (ls : List Str) (x : Str) :
    x ∈ cleanLines ls ↔ ∃ s ∈ beforeStop ls, skipLine s = false ∧ TrimSpace s = x := by
  rw [cleanLines_eq]
  simp only [List.mem_map, List.mem_filter, Bool.not_eq_true', and_assoc]

theorem notStop_of_mem_beforeStop (ls : List Str) (s : Str) (h : s ∈ beforeStop ls) :
    TrimSpace s ≠ stopAt := by
  rw [beforeStop_eq] at h
  have := List.mem_takeWhile_imp h
  simpa [notStop] using this

theorem beforeStop_sublist (ls : List Str) : List.Sublist (beforeStop ls) ls := by
  rw [beforeStop_eq]
  exact List.takeWhile_sublist _

theorem cleanLines_sublist (ls : List Str) :
    List.Sublist (cleanLines ls) ((beforeStop ls).map TrimSpace) := by
  rw [cleanLines_eq]
  exact (List.filter_sublist _).map _

theorem cleanLines_singleton_nil : cleanLines [[]] = [] := by decide

theorem cleanLines_Split_Join (ls : List Str) (h : ∀ l ∈ ls, '\n' ∉ l) :
    cleanLines (Split (Join ls)) = cleanLines ls := by
  cases ls with
  | nil => exact cleanLines_singleton_nil
  | cons l rest => rw [Split_Join _ (List.cons_ne_nil _ _) h]

theorem cleanLines_cons (l : Str) (rest : List Str) :
    cleanLines (l :: rest)
      = if TrimSpace l = stopAt then []
        else if skipLine l then cleanLines rest else TrimSpace l :: cleanLines rest := by
  have h := cleanLoop_eq (l :: rest) []
  rw [List.nil_append] at h
  rw [← h]
  unfold cleanLoop
  by_cases hs : TrimSpace l = stopAt
  · rw [if_pos hs, if_pos hs]
  · rw [if_neg hs, if_neg hs]
    by_cases hk : skipLine l = true
    · rw [if_pos hk, if_pos hk, cleanLoop_eq, List.nil_append]
    · rw [if_neg hk, if_neg hk, cleanLoop_eq]
      rfl

theorem cleanLines_blank_run (xs ys : List Str) (n : Nat) :
    cleanLines (xs ++ List.replicate n [] ++ ys) = cleanLines (xs ++ ys) := by
  induction xs with
  | nil =>
    induction n with
    | zero => simp
    | succ k ih =>
      rw [List.replicate_succ, List.nil_append, List.cons_append, cleanLines_cons,
        if_neg TrimSpace_nil_ne_stopAt, if_pos skipLine_nil]
      simpa using ih
  | cons x rest ih =>
    simp only [List.cons_append, List.append_assoc] at ih ⊢
    rw [cleanLines_cons, cleanLines_cons x, ih]

/-! ## Properties of the lines of the output -/

theorem mem_FormatDigestLines (raw l : Str) (h : l ∈ FormatDigestLines raw) :
    ∃ s ∈ beforeStop (Split raw), skipLine s = false ∧ l = promoteSpec (TrimSpace s) := by
  rw [FormatDigestLines_eq] at h
  obtain ⟨x, hx, hl⟩ := List.mem_map.mp h
  have hx2 : x ∈ cleanLines (Split raw) := (collapse_sublist _ _).subset hx
  obtain ⟨s, hs, hk, ht⟩ := (mem_cleanLines _ _).mp hx2
  exact ⟨s, hs, hk, by rw [ht, hl]⟩

theorem mem_beforeStop_Split (raw s : Str) (h : s ∈ beforeStop (Split raw)) : '\n' ∉ s :=
  Split_no_newline raw s ((beforeStop_sublist _).subset h)

theorem TrimSpace_no_newline (s : Str) (h : '\n' ∉ s) : '\n' ∉ TrimSpace s := by
  intro hm
  have h1 : TrimSpace s <+: s.dropWhile isSpace := List.rdropWhile_prefix _ _
  exact h ((List.dropWhile_sublist _).subset (h1.sublist.subset hm))

theorem FormatDigestLines_no_newline (raw l : Str) (h : l ∈ FormatDigestLines raw) :
    '\n' ∉ l := by
  obtain ⟨s, hs, _, hl⟩ := mem_FormatDigestLines raw l h
  rw [hl]
  exact promoteSpec_no_newline _ (TrimSpace_no_newline _ (mem_beforeStop_Split raw s hs))

theorem FormatDigestLines_isTrimmed (raw l : Str) (h : l ∈ FormatDigestLines raw) :
    IsTrimmed l = true := by
  obtain ⟨s, _, _, hl⟩ := mem_FormatDigestLines raw l h
  rw [hl]
  exact promoteSpec_isTrimmed _ (TrimSpace_isTrimmed s)

theorem FormatDigestLines_ne_stopAt (raw l : Str) (h : l ∈ FormatDigestLines raw) :
    l ≠ stopAt := by
  obtain ⟨s, hs, _, hl⟩ := mem_FormatDigestLines raw l h
  rw [hl]
  exact promoteSpec_ne_stopAt _ (notStop_of_mem_beforeStop _ s hs)

theorem FormatDigestLines_promote_fixed (raw l : Str) (h : l ∈ FormatDigestLines raw) :
    promoteSpec l = l := by
  obtain ⟨s, _, _, hl⟩ := mem_FormatDigestLines raw l h
  rw [hl]
  exact promoteSpec_idem _

theorem FormatDigestLines_chain (raw : Str) :
    List.Chain' notBothBlank (FormatDigestLines raw) := by
  rw [FormatDigestLines_eq, List.chain'_map]
  refine (collapse_chain false _).imp ?_
  intro a b hab hboth
  exact hab ⟨(promoteSpec_eq_nil_iff a).mp hboth.1, (promoteSpec_eq_nil_iff b).mp hboth.2⟩

/-- The lines of a text all of whose lines are trimmed, free of the stop line and
of line feeds: the first loop keeps those that match no pattern, unchanged. -/
theorem cleanLines_of_output (out : List Str) (ht : ∀ l ∈ out, IsTrimmed l = true)
    (hs : ∀ l ∈ out, l ≠ stopAt) :
    cleanLines out = out.filter (fun l => !skipLine l) := by
  induction out with
  | nil => rfl
  | cons l rest ih =>
    have hl : TrimSpace l = l := TrimSpace_of_isTrimmed l (ht l (List.mem_cons_self _ _))
    have ih2 := ih (fun x hx => ht x (List.mem_cons_of_mem _ hx))
      (fun x hx => hs x (List.mem_cons_of_mem _ hx))
    rw [cleanLines_cons, hl, if_neg (hs l (List.mem_cons_self _ _)), ih2]
    by_cases hk : skipLine l = true
    · simp [hk]
    · simp [hk]

theorem rerun_lines (raw : Str) :
    FormatDigestLines (FormatDigestText raw)
      = (FormatDigestLines raw).filter (fun l => !skipLine l) := by
  have hc : cleanLines (Split (FormatDigestText raw))
      = (FormatDigestLines raw).filter (fun l => !skipLine l) := by
    unfold FormatDigestText
    rw [cleanLines_Split_Join _ (FormatDigestLines_no_newline raw)]
    exact cleanLines_of_output _ (FormatDigestLines_isTrimmed raw)
      (FormatDigestLines_ne_stopAt raw)
  have hnb : [] ∉ (FormatDigestLines raw).filter (fun l => !skipLine l) := by
    intro hm
    have := (List.mem_filter.mp hm).2
    rw [skipLine_nil] at this
    exact absurd this (by decide)
  rw [FormatDigestLines_eq (FormatDigestText raw), hc, collapse_of_no_blank _ _ hnb]
  conv_rhs => rw [← List.map_id (List.filter _ _)]
  refine List.map_congr_left ?_
  intro l hl
  exact FormatDigestLines_promote_fixed raw l (List.mem_filter.mp hl).1

theorem FormatDigestText_beforeStop (raw : Str) :
    FormatDigestText (Join (beforeStop (Split raw))) = FormatDigestText raw := by
  unfold FormatDigestText
  rw [FormatDigestLines_eq, FormatDigestLines_eq,
    cleanLines_Split_Join _ (mem_beforeStop_Split raw), cleanLines_beforeStop]

theorem beforeStop_eq_self_or (ls : List Str) :
    beforeStop ls = ls ∨ ∃ l ∈ ls, TrimSpace l = stopAt := by
  by_cases h : ∃ l ∈ ls, TrimSpace l = stopAt
  · exact Or.inr h
  · left
    rw [beforeStop_eq, List.takeWhile_eq_self_iff]
    intro x hx
    simp only [notStop, decide_eq_true_eq]
    exact fun hx2 => h ⟨x, hx, hx2⟩

theorem mem_FormatDigestLines_of_kept (raw s : Str) (hs : s ∈ beforeStop (Split raw))
    (hk : skipLine s = false) : promoteLine (TrimSpace s) ∈ FormatDigestLines raw := by
  rw [FormatDigestLines_eq, promoteLine_eq]
  refine List.mem_map_of_mem _ ?_
  have hc : TrimSpace s ∈ cleanLines (Split raw) := (mem_cleanLines _ _).mpr ⟨s, hs, hk, rfl⟩
  rcases mem_collapse false _ _ hc with h | ⟨h, _⟩
  · exact h
  · exact absurd h (by decide)

theorem cleanLines_eq_nil (ls : List Str) (h : ∀ s ∈ beforeStop ls, skipLine s = true) :
    cleanLines ls = [] := by
  rw [cleanLines_eq, List.map_eq_nil_iff, List.filter_eq_nil_iff]
  intro s hs
  simp [h s hs]

/-! ## The claims -/

theorem marker_at_findIdx (ls : List Str) (l : Str)
    (h : ls[ls.findIdx (fun x => decide (TrimSpace x = stopAt))]? = some l) :
    TrimSpace l = stopAt := by
  obtain ⟨hlt, hget⟩ := List.getElem?_eq_some_iff.mp h
  have hp := List.findIdx_getElem (w := hlt)
  rw [hget] at hp
  simpa using hp

theorem cleanLoop_take (ls : List Str) :
    cleanLoop ls []
      = ((ls.take (ls.findIdx (fun l => decide (TrimSpace l = stopAt)))).filter
          (fun l => !artifactPatterns.any (fun re => MatchString re l))).map TrimSpace := by
  rw [cleanLoop_eq, List.nil_append, cleanLines_eq]
  rfl

theorem beforeStop_of_no_marker (ls : List Str) (h : ¬ ∃ l ∈ ls, TrimSpace l = stopAt) :
    beforeStop ls = ls := by
  rcases beforeStop_eq_self_or ls with h2 | h2
  · exact h2
  · exact absurd h2 h

/-- C1: the first loop handles exactly the first `k` lines of the input, `k` the
index of the first line whose trimmed form is "Congressional Record" (all the lines
when there is none): it filters and trims those and nothing else, so the output is
that of the first `k` lines, the marker line and what follows it contribute nothing
and no output line is "Congressional Record". The eight-line example of the
specification gives "## Daily Digest", "Some content", and a line that only begins
with the marker does not stop the loop. -/
theorem C1_stop_line_truncation (raw : Str) :
    cleanLoop (Split raw) []
        = (((Split raw).take ((Split raw).findIdx (fun l => decide (TrimSpace l = stopAt)))).filter
            (fun l => !artifactPatterns.any (fun re => MatchString re l))).map TrimSpace
      ∧ FormatDigestText raw
        = Join (promoteLoop (blankLoop
            ((((Split raw).take
                ((Split raw).findIdx (fun l => decide (TrimSpace l = stopAt)))).filter
              (fun l => !artifactPatterns.any (fun re => MatchString re l))).map TrimSpace)
            false []))
      ∧ FormatDigestText raw
        = FormatDigestText
            (Join ((Split raw).take
              ((Split raw).findIdx (fun l => decide (TrimSpace l = stopAt)))))
      ∧ (∀ l ∈ (Split raw).take ((Split raw).findIdx (fun l => decide (TrimSpace l = stopAt))),
          TrimSpace l ≠ stopAt)
      ∧ (∀ l, (Split raw)[(Split raw).findIdx (fun l => decide (TrimSpace l = stopAt))]? = some l →
          TrimSpace l = stopAt)
      ∧ ((∃ l ∈ Split raw, TrimSpace l = stopAt)
          ∨ FormatDigestText raw
            = Join (promoteLoop (blankLoop
                (((Split raw).filter
                  (fun l => !artifactPatterns.any (fun re => MatchString re l))).map TrimSpace)
                false [])))
      ∧ (∀ l ∈ FormatDigestLines raw, l ≠ stopAt)
      ∧ (∀ l ∈ Split (FormatDigestText raw), l ≠ stopAt)
      ∧ FormatDigestText (ofLines ["VerDate 01-JAN-2024", "", "", "Daily Digest",
            "Some content", "D847", "Congressional Record", "junk"])
          = "## Daily Digest\nSome content".toList
      ∧ FormatDigestText (ofLines ["a", "Congressional Record: x", "b", "  Congressional Record ",
            "c"])
          = "a\nCongressional Record: x\nb".toList := by
  have h1 := cleanLoop_take (Split raw)
  have h2 : FormatDigestText raw
      = Join (promoteLoop (blankLoop
          ((((Split raw).take
              ((Split raw).findIdx (fun l => decide (TrimSpace l = stopAt)))).filter
            (fun l => !artifactPatterns.any (fun re => MatchString re l))).map TrimSpace)
          false [])) := by
    rw [← h1]
    rfl
  refine ⟨h1, h2, (FormatDigestText_beforeStop raw).symm,
    fun l hl => notStop_of_mem_beforeStop (Split raw) l hl,
    fun l hl => marker_at_findIdx (Split raw) l hl, ?_, FormatDigestLines_ne_stopAt raw, ?_,
    by decide, by decide⟩
  · by_cases hm : ∃ l ∈ Split raw, TrimSpace l = stopAt
    · exact Or.inl hm
    · right
      have hb : (Split raw).take ((Split raw).findIdx (fun l => decide (TrimSpace l = stopAt)))
          = Split raw := beforeStop_of_no_marker (Split raw) hm
      rw [h2, hb]
  · unfold FormatDigestText
    cases hout : FormatDigestLines raw with
    | nil =>
      intro l hl
      have hl2 : l = [] := by simpa [Join, Split] using hl
      rw [hl2]
      decide
    | cons x rest =>
      rw [Split_Join _ (List.cons_ne_nil _ _)
        (fun y hy => FormatDigestLines_no_newline raw y (hout ▸ hy)), ← hout]
      exact FormatDigestLines_ne_stopAt raw

/-- C2 (as stated, refuted): the line "  VerDate 01-JAN-2024" is kept, because the
patterns are tried on the untrimmed line, and is emitted trimmed, as a line that
matches the pattern `^VerDate`. -/
theorem C2_counterexample :
    FormatDigestLines "  VerDate 01-JAN-2024".toList = ["VerDate 01-JAN-2024".toList]
      ∧ MatchString (Re.cat [Re.bot, Re.str "VerDate"]) "VerDate 01-JAN-2024".toList = true
      ∧ ¬ (∀ l ∈ FormatDigestLines "  VerDate 01-JAN-2024".toList,
            ∀ re ∈ artifactPatterns, MatchString re l = false) := by
  decide

/-- C2 (amended): every output line is the trimmed form, with or without the
heading marker in front, of an input line before the stop line that, untrimmed,
matches none of the fourteen patterns. -/
theorem C2_output_from_unmatched_lines (raw l : Str) (h : l ∈ FormatDigestLines raw) :
    ∃ s ∈ (Split raw).take ((Split raw).findIdx (fun x => decide (TrimSpace x = stopAt))),
      (∀ re ∈ artifactPatterns, MatchString re s = false)
        ∧ (l = TrimSpace s ∨ l = "## ".toList ++ TrimSpace s) := by
  obtain ⟨s, hs, hk, hl⟩ := mem_FormatDigestLines raw l h
  refine ⟨s, hs, ?_, ?_⟩
  · intro re hre
    unfold skipLine at hk
    rw [List.any_eq_false] at hk
    simpa using hk re hre
  · rcases promoteSpec_cases (TrimSpace s) with ⟨_, h2⟩ | ⟨_, h2⟩
    · exact Or.inr (by rw [hl, h2]; rfl)
    · exact Or.inl (by rw [hl, h2])

/-- Witness of C2 (amended), at the input "  VerDate 01-JAN-2024". -/
theorem C2_output_from_unmatched_lines_witness :
    "VerDate 01-JAN-2024".toList ∈ FormatDigestLines "  VerDate 01-JAN-2024".toList
      ∧ ∃ s ∈ (Split "  VerDate 01-JAN-2024".toList).take
            ((Split "  VerDate 01-JAN-2024".toList).findIdx
              (fun x => decide (TrimSpace x = stopAt))),
          (∀ re ∈ artifactPatterns, MatchString re s = false)
            ∧ ("VerDate 01-JAN-2024".toList = TrimSpace s
              ∨ "VerDate 01-JAN-2024".toList = "## ".toList ++ TrimSpace s) :=
  ⟨by decide, C2_output_from_unmatched_lines _ _ (by decide)⟩

/-- C3: in the list of lines that `FormatDigestText` joins, and in the lines of the
text it returns, no two neighbours are both empty. -/
theorem C3_no_consecutive_blank_lines (raw : Str) :
    List.Chain' (fun a b : Str => ¬ (a = [] ∧ b = [])) (FormatDigestLines raw)
      ∧ List.Chain' (fun a b : Str => ¬ (a = [] ∧ b = [])) (Split (FormatDigestText raw)) := by
  refine ⟨FormatDigestLines_chain raw, ?_⟩
  unfold FormatDigestText
  cases hout : FormatDigestLines raw with
  | nil => simp [Join, Split]
  | cons l rest =>
    rw [Split_Join _ (List.cons_ne_nil _ _)
      (fun x hx => FormatDigestLines_no_newline raw x (hout ▸ hx)), ← hout]
    exact FormatDigestLines_chain raw

/-- C4 (as stated, refuted): the lines "Senate met.", "", "", "More text." do not
give "## Senate met.", "", "More text."; the two empty lines leave no empty line. -/
theorem C4_counterexample :
    FormatDigestLines (ofLines ["Senate met.", "", "", "More text."])
        = ["## Senate met.".toList, "More text.".toList]
      ∧ FormatDigestLines (ofLines ["Senate met.", "", "", "More text."])
        ≠ ["## Senate met.".toList, [], "More text.".toList]
      ∧ FormatDigestLines (ofLines ["Senate met.", "", "More text."])
        ≠ ["## Senate met.".toList, [], "More text.".toList] := by
  decide

/-- C4 (amended): empty input lines match the pattern `^\s*$` and are dropped by
the filter, so a run of empty lines between two lines leaves no empty line between
them: the output is the one of the input without the run. The example of the
specification gives "## Senate met.", "More text.". -/
theorem C4_blank_runs_dropped (xs ys : List Str) (n : Nat)
    (hx : ∀ l ∈ xs, '\n' ∉ l) (hy : ∀ l ∈ ys, '\n' ∉ l) :
    FormatDigestText (Join (xs ++ List.replicate n [] ++ ys)) = FormatDigestText (Join (xs ++ ys))
      ∧ FormatDigestLines (ofLines ["Senate met.", "", "", "More text."])
          = ["## Senate met.".toList, "More text.".toList] := by
  refine ⟨?_, by decide⟩
  have h1 : ∀ l ∈ xs ++ List.replicate n [] ++ ys, '\n' ∉ l := by
    intro l hl
    rcases List.mem_append.mp hl with h | h
    · rcases List.mem_append.mp h with h2 | h2
      · exact hx l h2
      · rw [(List.mem_replicate.mp h2).2]
        simp
    · exact hy l h
  have h2 : ∀ l ∈ xs ++ ys, '\n' ∉ l := by
    intro l hl
    rcases List.mem_append.mp hl with h | h
    · exact hx l h
    · exact hy l h
  unfold FormatDigestText
  rw [FormatDigestLines_eq, FormatDigestLines_eq, cleanLines_Split_Join _ h1,
    cleanLines_Split_Join _ h2, cleanLines_blank_run]

/-- Witness of C4 (amended): a run of two empty lines between "Senate met." and
"More text.". -/
theorem C4_blank_runs_dropped_witness :
    FormatDigestText (Join (["Senate met.".toList] ++ List.replicate 2 [] ++ ["More text.".toList]))
        = FormatDigestText (Join (["Senate met.".toList] ++ ["More text.".toList]))
      ∧ FormatDigestLines (ofLines ["Senate met.", "", "", "More text."])
          = ["## Senate met.".toList, "More text.".toList] :=
  C4_blank_runs_dropped ["Senate met.".toList] ["More text.".toList] 2 (by decide) (by decide)

/-- C5: each output line is the line `L` left by truncation, filtering, trimming
and collapsing, with "## " in front when `L` starts with one of the eight labels and
unchanged otherwise; whatever the list of labels, the marker is put in front at most
once; "Senate met." becomes "## Senate met.". -/
theorem C5_heading_promotion (raw : Str) :
    FormatDigestLines raw
        = (blankLoop (cleanLoop (Split raw) []) false []).map
            (fun L => if sectionHeaders.any (fun h => HasPrefix L h)
              then "## ".toList ++ L else L)
      ∧ (∀ (L : Str) (labels : List Str),
          headerLoop L labels L = if labels.any (fun h => HasPrefix L h)
            then "## ".toList ++ L else L)
      ∧ promoteLine "Senate met.".toList = "## Senate met.".toList := by
  refine ⟨?_, fun L labels => headerLoop_eq L labels L, by decide⟩
  unfold FormatDigestLines promoteLoop
  exact List.map_congr_left (fun l _ => promoteLine_eq l)

/-- C6 (as stated, refuted): the input "  Syntax Warning: bad" gives
"Syntax Warning: bad", and a second run, which finds that line matching the pattern
`^Syntax Warning:`, gives the empty text. -/
theorem C6_counterexample :
    FormatDigestText "  Syntax Warning: bad".toList = "Syntax Warning: bad".toList
      ∧ FormatDigestText (FormatDigestText "  Syntax Warning: bad".toList) = []
      ∧ FormatDigestText (FormatDigestText "  Syntax Warning: bad".toList)
          ≠ FormatDigestText "  Syntax Warning: bad".toList := by
  decide

/-- C6 (amended): a second run keeps, in order and unchanged, the output lines of
the first run that match no artifact pattern and removes the others: it truncates
nothing, collapses nothing and adds no marker. From the second run on, running
again changes nothing. -/
theorem C6_rerun_filters_only (raw : Str) :
    FormatDigestLines (FormatDigestText raw)
        = (FormatDigestLines raw).filter
            (fun l => !artifactPatterns.any (fun re => MatchString re l))
      ∧ FormatDigestText (FormatDigestText (FormatDigestText raw))
        = FormatDigestText (FormatDigestText raw) := by
  refine ⟨rerun_lines raw, ?_⟩
  have h2 : FormatDigestLines (FormatDigestText (FormatDigestText raw))
      = FormatDigestLines (FormatDigestText raw) := by
    rw [rerun_lines (FormatDigestText raw), rerun_lines raw, List.filter_filter]
    simp
  show Join (FormatDigestLines (FormatDigestText (FormatDigestText raw)))
    = Join (FormatDigestLines (FormatDigestText raw))
  rw [h2]

theorem collapse_filter_nonempty (b : Bool) (ls : List Str) :
    (collapse b ls).filter (fun l => decide (l ≠ [])) = ls.filter (fun l => decide (l ≠ [])) := by
  induction ls generalizing b with
  | nil => simp [collapse]
  | cons l rest ih =>
    unfold collapse
    by_cases hl : l = []
    · cases b
      · simpa [hl] using ih true
      · simpa [hl] using ih true
    · simpa [hl] using ih false

theorem promoteLine_cases (l : Str) :
    promoteLine l = l ∨ promoteLine l = "## ".toList ++ l := by
  rw [promoteLine_eq]
  rcases promoteSpec_cases l with ⟨_, h2⟩ | ⟨_, h2⟩
  · exact Or.inr h2
  · exact Or.inl h2

theorem promoteLine_eq_nil_iff (l : Str) : promoteLine l = [] ↔ l = [] := by
  rw [promoteLine_eq]
  exact promoteSpec_eq_nil_iff l

theorem FormatDigestLines_kept (raw : Str) :
    FormatDigestLines raw
      = (collapse false
          ((((Split raw).take
              ((Split raw).findIdx (fun x => decide (TrimSpace x = stopAt)))).filter
            (fun s => !artifactPatterns.any (fun re => MatchString re s))).map TrimSpace)).map
          promoteLine := by
  unfold FormatDigestLines promoteLoop
  rw [cleanLoop_take, blankLoop_eq, List.nil_append]

/-- C7 (as stated, refuted): the two lines of the input "\x0b\n\x0b" (a vertical
tab each) precede any stop line and match no artifact pattern, yet one line is
emitted for the two of them, so the output is not, line for line, the trimmed
retained lines. -/
theorem C7_counterexample :
    Split "\x0b\n\x0b".toList = [['\x0b'], ['\x0b']]
      ∧ (∀ s ∈ Split "\x0b\n\x0b".toList,
          TrimSpace s ≠ stopAt ∧ ∀ re ∈ artifactPatterns, MatchString re s = false)
      ∧ FormatDigestLines "\x0b\n\x0b".toList = [[]]
      ∧ FormatDigestLines "\x0b\n\x0b".toList
          ≠ (((Split "\x0b\n\x0b".toList).take
                ((Split "\x0b\n\x0b".toList).findIdx
                  (fun x => decide (TrimSpace x = stopAt)))).filter
              (fun s => !artifactPatterns.any (fun re => MatchString re s))).map
              (fun s => promoteLine (TrimSpace s)) := by
  decide

/-- C7 (amended): the output is, line for line, the trimmed forms of the input
lines before the stop line that match no artifact pattern, runs of empty ones merged
into one, each with or without one "## " in front. The retained lines whose trimmed
form is not empty are emitted one for one and in order; when no retained line trims
to the empty line the output is exactly the trimmed retained lines. An emitted line
has no white space at either end, and a line is its trimmed form between two runs of
white space, so the white space inside is kept as it is. -/
theorem C7_retained_lines_emitted (raw : Str) :
    FormatDigestLines raw
        = (collapse false
            ((((Split raw).take
                ((Split raw).findIdx (fun x => decide (TrimSpace x = stopAt)))).filter
              (fun s => !artifactPatterns.any (fun re => MatchString re s))).map TrimSpace)).map
            promoteLine
      ∧ (FormatDigestLines raw).filter (fun l => decide (l ≠ []))
        = ((((Split raw).take
                ((Split raw).findIdx (fun x => decide (TrimSpace x = stopAt)))).filter
              (fun s => !artifactPatterns.any (fun re => MatchString re s))).filter
            (fun s => decide (TrimSpace s ≠ []))).map (fun s => promoteLine (TrimSpace s))
      ∧ ((∃ s ∈ ((Split raw).take
                ((Split raw).findIdx (fun x => decide (TrimSpace x = stopAt)))).filter
              (fun s => !artifactPatterns.any (fun re => MatchString re s)), TrimSpace s = [])
          ∨ FormatDigestLines raw
            = (((Split raw).take
                  ((Split raw).findIdx (fun x => decide (TrimSpace x = stopAt)))).filter
                (fun s => !artifactPatterns.any (fun re => MatchString re s))).map
                (fun s => promoteLine (TrimSpace s)))
      ∧ (∀ s : Str,
          (promoteLine (TrimSpace s) = TrimSpace s
            ∨ promoteLine (TrimSpace s) = "## ".toList ++ TrimSpace s)
          ∧ (promoteLine (TrimSpace s)).head?.all (fun c => !isSpace c) = true
          ∧ (promoteLine (TrimSpace s)).getLast?.all (fun c => !isSpace c) = true
          ∧ ∃ a b : Str, (∀ c ∈ a, isSpace c = true) ∧ (∀ c ∈ b, isSpace c = true)
              ∧ s = a ++ TrimSpace s ++ b)
      ∧ FormatDigestText "  a   b  ".toList = "a   b".toList
      ∧ FormatDigestLines "\x0b\nSenate  x\n\x0b\n\x0b\n b\t c ".toList
          = [[], "## Senate  x".toList, [], "b\t c".toList] := by
  have hA := FormatDigestLines_kept raw
  refine ⟨hA, ?_, ?_, ?_, by decide, by decide⟩
  · rw [hA, List.filter_map]
    have hf : ((fun l : Str => decide (l ≠ [])) ∘ promoteLine) = fun l => decide (l ≠ []) := by
      funext l
      simp [promoteLine_eq_nil_iff]
    rw [hf, collapse_filter_nonempty, List.filter_map, List.map_map]
    rfl
  · by_cases he : ∃ s ∈ ((Split raw).take
        ((Split raw).findIdx (fun x => decide (TrimSpace x = stopAt)))).filter
        (fun s => !artifactPatterns.any (fun re => MatchString re s)), TrimSpace s = []
    · exact Or.inl he
    · right
      rw [hA, collapse_of_no_blank, List.map_map]
      · rfl
      · intro hm
        obtain ⟨s, hs, hs2⟩ := List.mem_map.mp hm
        exact he ⟨s, hs, hs2⟩
  · intro s
    have ht : IsTrimmed (promoteLine (TrimSpace s)) = true := by
      rw [promoteLine_eq]
      exact promoteSpec_isTrimmed _ (TrimSpace_isTrimmed s)
    unfold IsTrimmed at ht
    rw [Bool.and_eq_true] at ht
    exact ⟨promoteLine_cases _, ht.1, ht.2, TrimSpace_decomp s⟩

/-- C8: when every line before the stop line (every line, when there is none)
matches an artifact pattern, `FormatDigestText` returns the empty text. -/
theorem C8_degenerate_inputs (raw : Str)
    (h : ∀ s ∈ (Split raw).take ((Split raw).findIdx (fun x => decide (TrimSpace x = stopAt))),
      ∃ re ∈ artifactPatterns, MatchString re s = true) :
    FormatDigestText raw = [] := by
  have h2 : ∀ s ∈ beforeStop (Split raw), skipLine s = true := by
    intro s hs
    unfold skipLine
    rw [List.any_eq_true]
    exact h s hs
  unfold FormatDigestText
  rw [FormatDigestLines_eq, cleanLines_eq_nil _ h2]
  rfl

/-- Witness of C8: the empty input and the lines "VerDate X", "D12", "". -/
theorem C8_degenerate_inputs_witness :
    FormatDigestText [] = [] ∧ FormatDigestText (ofLines ["VerDate X", "D12", ""]) = [] :=
  ⟨C8_degenerate_inputs [] (by decide),
    C8_degenerate_inputs (ofLines ["VerDate X", "D12", ""]) (by decide)⟩

/-- C10: the output lines are, line by line, the lines of a list `core` with or
without the marker "## " in front, where `core` is a sublist of the trimmed input
lines before the stop line; so there are no more output lines than input lines
before the stop line. -/
theorem C10_output_is_sublist (raw : Str) :
    List.Forall₂ (fun out c : Str => out = c ∨ out = "## ".toList ++ c)
        (FormatDigestLines raw) (blankLoop (cleanLoop (Split raw) []) false [])
      ∧ List.Sublist (blankLoop (cleanLoop (Split raw) []) false [])
          (((Split raw).take
            ((Split raw).findIdx (fun x => decide (TrimSpace x = stopAt)))).map TrimSpace)
      ∧ (FormatDigestLines raw).length
          ≤ ((Split raw).take
              ((Split raw).findIdx (fun x => decide (TrimSpace x = stopAt)))).length := by
  have hsub : List.Sublist (blankLoop (cleanLoop (Split raw) []) false [])
      ((beforeStop (Split raw)).map TrimSpace) := by
    rw [cleanLoop_eq, blankLoop_eq]
    simp only [List.nil_append]
    exact (collapse_sublist _ _).trans (cleanLines_sublist _)
  refine ⟨?_, hsub, ?_⟩
  · unfold FormatDigestLines promoteLoop
    rw [List.forall₂_map_left_iff, List.forall₂_same]
    intro c _
    rw [promoteLine_eq]
    rcases promoteSpec_cases c with ⟨_, h2⟩ | ⟨_, h2⟩
    · exact Or.inr h2
    · exact Or.inl h2
  · have := hsub.length_le
    rw [List.length_map] at this
    unfold FormatDigestLines promoteLoop
    rw [List.length_map]
    exact this

/-! ## The calendar -/

theorem dayOfYear_bound (a b c d e f g : Int) (h0 : 0 ≤ a) (h1 : a ≤ 146096)
    (hc : c = a / 1460) (hd : d = a / 36524) (he : e = a / 146096)
    (hb : b = (a - c + d - e) / 365) (hf : f = b / 4) (hg : g = b / 100) :
    0 ≤ b ∧ b ≤ 399 ∧ 0 ≤ a - (365 * b + f - g) ∧ a - (365 * b + f - g) ≤ 365
      ∧ (a - (365 * b + f - g) = 365 → b % 4 = 3 ∧ (b % 100 ≠ 99 ∨ b = 399)) := by
  have hd2 : d = 0 ∨ d = 1 ∨ d = 2 ∨ d = 3 ∨ d = 4 := by omega
  have hg2 : g = 0 ∨ g = 1 ∨ g = 2 ∨ g = 3 := by omega
  have hcf : c - f = -1 ∨ c - f = 0 ∨ c - f = 1 := by omega
  rcases hd2 with h | h | h | h | h <;> rcases hg2 with h2 | h2 | h2 | h2 <;>
    rcases hcf with h3 | h3 | h3 <;> omega

theorem daysBeforeYear_era (b era : Int) (hb0 : 0 ≤ b) (hb1 : b ≤ 399) :
    daysBeforeYear (b + era * 400 + 1) = era * 146097 + (365 * b + b / 4 - b / 100) := by
  unfold daysBeforeYear
  have h4 : (b + era * 400 + 1 - 1) / 4 = b / 4 + era * 100 := by omega
  have h100 : (b + era * 400 + 1 - 1) / 100 = b / 100 + era * 4 := by omega
  have h400 : (b + era * 400 + 1 - 1) / 400 = era := by omega
  rw [h4, h100, h400]
  omega

theorem daysBeforeYear_succ (y : Int) :
    daysBeforeYear (y + 1) = daysBeforeYear y + 365 + (if isLeap y then 1 else 0) := by
  unfold daysBeforeYear isLeap
  have h4 : (y + 1 - 1) / 4 = (y - 1) / 4 + (if y % 4 = 0 then 1 else 0) := by
    split_ifs <;> omega
  have h100 : (y + 1 - 1) / 100 = (y - 1) / 100 + (if y % 100 = 0 then 1 else 0) := by
    split_ifs <;> omega
  have h400 : (y + 1 - 1) / 400 = (y - 1) / 400 + (if y % 400 = 0 then 1 else 0) := by
    split_ifs <;> omega
  rw [h4, h100, h400]
  by_cases c4 : y % 4 = 0 <;> by_cases c100 : y % 100 = 0 <;> by_cases c400 : y % 400 = 0 <;>
    simp [c4, c100, c400] <;> omega

theorem isLeap_of_last_day (b era : Int)
    (h : b % 4 = 3 ∧ (b % 100 ≠ 99 ∨ b = 399)) : isLeap (b + era * 400 + 1) = true := by
  unfold isLeap
  have c4 : (b + era * 400 + 1) % 4 = 0 := by omega
  by_cases c100 : (b + era * 400 + 1) % 100 = 0
  · have c400 : (b + era * 400 + 1) % 400 = 0 := by omega
    simp [c4, c400]
  · simp [c4, c100]

theorem civil_core (era b doy mp : Int) (hb0 : 0 ≤ b) (hb1 : b ≤ 399) (hd0 : 0 ≤ doy)
    (hd1 : doy ≤ 365) (hleap : doy = 365 → b % 4 = 3 ∧ (b % 100 ≠ 99 ∨ b = 399))
    (hmp : mp = (5 * doy + 2) / 153) :
    1 ≤ (if mp < 10 then mp + 3 else mp - 9) ∧ (if mp < 10 then mp + 3 else mp - 9) ≤ 12
      ∧ 1 ≤ doy - (153 * mp + 2) / 5 + 1
      ∧ doy - (153 * mp + 2) / 5 + 1
          ≤ daysIn (b + era * 400 + (if (if mp < 10 then mp + 3 else mp - 9) ≤ 2 then 1 else 0))
              (if mp < 10 then mp + 3 else mp - 9)
      ∧ dayNumber (b + era * 400 + (if (if mp < 10 then mp + 3 else mp - 9) ≤ 2 then 1 else 0))
            (if mp < 10 then mp + 3 else mp - 9) (doy - (153 * mp + 2) / 5 + 1)
          = era * 146097 + (365 * b + b / 4 - b / 100) + doy - 306 := by
  have e1 := daysBeforeYear_era b era hb0 hb1
  have e2 := daysBeforeYear_succ (b + era * 400)
  have hm0 : 0 ≤ mp := by omega
  have hm1 : mp ≤ 11 := by omega
  have hfeb : mp = 11 →
      doy - 337 + 1 ≤ (if isLeap (b + era * 400 + 1) = true then 29 else 28) := by
    intro hm
    by_cases hl : isLeap (b + era * 400 + 1) = true
    · simp [hl]
      omega
    · have h365 : doy ≠ 365 := fun h => hl (isLeap_of_last_day b era (hleap h))
      simp [hl]
      omega
  by_cases hL : isLeap (b + era * 400) = true
  · simp only [hL, if_true] at e2
    interval_cases mp <;>
      simp [dayNumber, daysBeforeMonth, daysIn, List.range_succ, hL] <;> omega
  · simp only [hL, Bool.false_eq_true, if_false] at e2
    interval_cases mp <;>
      simp [dayNumber, daysBeforeMonth, daysIn, List.range_succ, hL] <;> omega

theorem civilFromDays_spec (n : Int) :
    1 ≤ (civilFromDays n).2.1 ∧ (civilFromDays n).2.1 ≤ 12
      ∧ 1 ≤ (civilFromDays n).2.2
      ∧ (civilFromDays n).2.2 ≤ daysIn (civilFromDays n).1 (civilFromDays n).2.1
      ∧ dayNumber (civilFromDays n).1 (civilFromDays n).2.1 (civilFromDays n).2.2 = n := by
  have hz0 : 0 ≤ n + 306 - (n + 306) / 146097 * 146097 := by omega
  have hz1 : n + 306 - (n + 306) / 146097 * 146097 ≤ 146096 := by omega
  obtain ⟨hb0, hb1, hd0, hd1, hleap⟩ :=
    dayOfYear_bound (n + 306 - (n + 306) / 146097 * 146097) _ _ _ _ _ _ hz0 hz1
      rfl rfl rfl rfl rfl rfl
  have h := civil_core ((n + 306) / 146097) _ _ _ hb0 hb1 hd0 hd1 hleap rfl
  have hn : (n + 306) / 146097 * 146097
      + (n + 306 - (n + 306) / 146097 * 146097) - 306 = n := by omega
  obtain ⟨h1, h2, h3, h4, h5⟩ := h
  refine ⟨h1, h2, h3, h4, ?_⟩
  simp only [civilFromDays]
  rw [h5]
  omega

theorem Date_spec (t : Time) :
    1 ≤ t.Date.2.1 ∧ t.Date.2.1 ≤ 12 ∧ 1 ≤ t.Date.2.2
      ∧ t.Date.2.2 ≤ daysIn t.Date.1 t.Date.2.1
      ∧ dayNumber t.Date.1 t.Date.2.1 t.Date.2.2
          = ((t.abs / 86400 : Nat) : Int) - 106751990354238 :=
  civilFromDays_spec _

theorem abs_no_wrap (t : Time) (h0 : -9223371966606163200 ≤ t.sec + t.offset)
    (h1 : t.sec + t.offset < 9223372107103388416) :
    ((t.abs / 86400 : Nat) : Int) - 106751990354238 = (t.sec + t.offset) / 86400 := by
  unfold Time.abs
  omega

/-! ## `FormatDigest` -/

theorem digitChar_isDigit (k : Nat) (h : k < 10) : (Nat.digitChar k).isDigit = true := by
  interval_cases k <;> decide

theorem digit_isDigit (x : Int) (h0 : 0 ≤ x) (h1 : x ≤ 9) : (digit x).isDigit = true :=
  digitChar_isDigit _ (by omega)

theorem appendInt_two (x : Int) (h0 : 0 ≤ x) (h1 : x < 100) :
    appendInt x 2 = [digit (x / 10), digit (x % 10)] := by
  unfold appendInt digit
  have hx : ¬ x < 0 := by omega
  have hu : x.natAbs < 100 := by omega
  have e1 : x.natAbs / 10 = (x / 10).toNat := by omega
  have e0 : x.natAbs % 10 = (x % 10).toNat := by omega
  simp [hx, hu, e1, e0]

theorem appendInt_four (x : Int) (h0 : 0 ≤ x) (h1 : x ≤ 9999) :
    appendInt x 4
      = [digit (x / 1000), digit (x / 100 % 10), digit (x / 10 % 10), digit (x % 10)] := by
  unfold appendInt digit
  have hx : ¬ x < 0 := by omega
  have hu : x.natAbs < 10000 := by omega
  have e3 : x.natAbs / 100 / 10 = (x / 1000).toNat := by omega
  have e2 : x.natAbs / 100 % 10 = (x / 100 % 10).toNat := by omega
  have e1 : x.natAbs % 100 / 10 = (x / 10 % 10).toNat := by omega
  have e0 : x.natAbs % 100 % 10 = (x % 10).toNat := by omega
  simp [hx, hu, e3, e2, e1, e0]

theorem appendInt_negative (x : Int) (w : Nat) (h : x < 0) :
    ∃ r : Str, appendInt x w = '-' :: r := by
  unfold appendInt
  simp only [h, if_true]
  split_ifs
  · exact ⟨_, rfl⟩
  · exact ⟨_, rfl⟩
  · exact ⟨List.replicate (w - (Nat.toDigits 10 x.natAbs).length) '0'
      ++ Nat.toDigits 10 x.natAbs, by simp⟩

theorem toDigitsCore_length_succ (b f n : Nat) (ds : List Char) :
    ds.length + 1 ≤ (Nat.toDigitsCore b (f + 1) n ds).length := by
  induction f generalizing n ds with
  | zero =>
    simp only [Nat.toDigitsCore]
    split_ifs <;> simp
  | succ k ih =>
    rw [Nat.toDigitsCore]
    split_ifs
    · simp
    · have := ih (n / b) (Nat.digitChar (n % b) :: ds)
      simp only [List.length_cons] at this
      omega

theorem toDigits_length_of_large (u : Nat) (h : 10000 ≤ u) :
    5 ≤ (Nat.toDigits 10 u).length := by
  unfold Nat.toDigits
  obtain ⟨f, hf⟩ : ∃ f, u + 1 = f + 1 + 1 + 1 + 1 + 1 := ⟨u - 4, by omega⟩
  rw [hf]
  have h1 : ¬ u / 10 = 0 := by omega
  have h2 : ¬ u / 10 / 10 = 0 := by omega
  have h3 : ¬ u / 10 / 10 / 10 = 0 := by omega
  have h4 : ¬ u / 10 / 10 / 10 / 10 = 0 := by omega
  rw [Nat.toDigitsCore]
  simp only [h1, if_false]
  rw [Nat.toDigitsCore]
  simp only [h2, if_false]
  rw [Nat.toDigitsCore]
  simp only [h3, if_false]
  rw [Nat.toDigitsCore]
  simp only [h4, if_false]
  have := toDigitsCore_length_succ 10 f (u / 10 / 10 / 10 / 10)
    [Nat.digitChar (u / 10 / 10 / 10 % 10), Nat.digitChar (u / 10 / 10 % 10),
      Nat.digitChar (u / 10 % 10), Nat.digitChar (u % 10)]
  simpa using this

theorem appendInt_large (x : Int) (h : 9999 < x) : 5 ≤ (appendInt x 4).length := by
  unfold appendInt
  have hu : ¬ x.natAbs < 10000 := by omega
  have hl := toDigits_length_of_large x.natAbs (by omega)
  simp only [hu, and_false, if_false]
  simp only [show ¬ ((4 : Nat) = 2) by decide, false_and, if_false, List.length_append]
  omega

theorem Format_eq (t : Time) :
    t.Format
      = appendInt t.Date.1 4
        ++ ['-', digit (t.Date.2.1 / 10), digit (t.Date.2.1 % 10), '-',
            digit (t.Date.2.2 / 10), digit (t.Date.2.2 % 10)] := by
  obtain ⟨hm0, hm1, hd0, hd1, _⟩ := Date_spec t
  have hd2 : t.Date.2.2 ≤ 31 := by
    have : daysIn t.Date.1 t.Date.2.1 ≤ 31 := by
      unfold daysIn
      split_ifs <;> omega
    omega
  unfold Time.Format
  rw [appendInt_two _ (by omega) (by omega), appendInt_two _ (by omega) (by omega)]
  simp

theorem isYMD_length (s : Str) (h : isYMD s = true) : s.length = 10 := by
  unfold isYMD at h
  split at h
  · rfl
  · exact absurd h (by decide)

theorem isYMD_head (c : Char) (r : Str) (h : isYMD (c :: r) = true) : c.isDigit = true := by
  unfold isYMD at h
  split at h
  · rename_i heq
    simp only [Bool.and_eq_true] at h
    rw [(List.cons.inj heq).1]
    exact h.1.1.1.1.1.1.1.1.1
  · exact absurd h (by decide)

theorem isYMD_Format (t : Time) :
    isYMD t.Format = true ↔ 0 ≤ t.Date.1 ∧ t.Date.1 ≤ 9999 := by
  obtain ⟨hm0, hm1, hd0, hd1, _⟩ := Date_spec t
  have hd2 : t.Date.2.2 ≤ 31 := by
    have : daysIn t.Date.1 t.Date.2.1 ≤ 31 := by
      unfold daysIn
      split_ifs <;> omega
    omega
  constructor
  · intro h
    by_contra hc
    by_cases hneg : t.Date.1 < 0
    · obtain ⟨r, hr⟩ := appendInt_negative t.Date.1 4 hneg
      rw [Format_eq, hr, List.cons_append] at h
      exact absurd (isYMD_head _ _ h) (by decide)
    · have hbig : 9999 < t.Date.1 := by omega
      have hl := isYMD_length _ h
      have h5 := appendInt_large _ hbig
      rw [Format_eq, List.length_append] at hl
      simp only [List.length_cons, List.length_nil] at hl
      omega
  · rintro ⟨h0, h1⟩
    rw [Format_eq, appendInt_four _ h0 h1]
    simp [isYMD, digit_isDigit _ (show 0 ≤ t.Date.1 / 1000 by omega) (by omega),
      digit_isDigit _ (show 0 ≤ t.Date.1 / 100 % 10 by omega) (by omega),
      digit_isDigit _ (show 0 ≤ t.Date.1 / 10 % 10 by omega) (by omega),
      digit_isDigit _ (show 0 ≤ t.Date.1 % 10 by omega) (by omega),
      digit_isDigit _ (show 0 ≤ t.Date.2.1 / 10 by omega) (by omega),
      digit_isDigit _ (show 0 ≤ t.Date.2.1 % 10 by omega) (by omega),
      digit_isDigit _ (show 0 ≤ t.Date.2.2 / 10 by omega) (by omega),
      digit_isDigit _ (show 0 ≤ t.Date.2.2 % 10 by omega) (by omega)]

theorem FormatDigest_eq (d : DailyDigest) :
    FormatDigest d
      = "# Congress.gov Daily Digest\n\n".toList
        ++ "**Issue:** ".toList ++ d.Issue ++ "\n".toList
        ++ "**PublishDate:** ".toList
        ++ (if d.PublishDate.IsZero then "(unknown date)".toList else d.PublishDate.Format)
        ++ "\n".toList
        ++ (if d.PDFUrl = [] then [] else "**PDFUrl:** ".toList ++ d.PDFUrl ++ "\n".toList) := by
  unfold FormatDigest
  by_cases hp : d.PDFUrl = []
  · simp [hp]
  · simp [hp]

/-- C9 (as stated, refuted): for the publish date January 1 of the year 10000,
which is not the zero time, `FormatDigest` writes the date line with "10000-01-01",
eleven characters, which is not of the form YYYY-MM-DD; no text of that form stands
in its place. -/
theorem C9_counterexample :
    Time.IsZero ⟨315537897600, 0, 0, by decide, by decide, by decide⟩ = false
      ∧ FormatDigest ⟨"119".toList, "12".toList,
            ⟨315537897600, 0, 0, by decide, by decide, by decide⟩, []⟩
          = "# Congress.gov Daily Digest\n\n**Issue:** 12\n**PublishDate:** 10000-01-01\n".toList
      ∧ isYMD "10000-01-01".toList = false
      ∧ ¬ ∃ date : Str, isYMD date = true
          ∧ FormatDigest ⟨"119".toList, "12".toList,
                ⟨315537897600, 0, 0, by decide, by decide, by decide⟩, []⟩
              = "# Congress.gov Daily Digest\n\n**Issue:** 12\n**PublishDate:** ".toList
                ++ date ++ "\n".toList := by
  have hf : FormatDigest ⟨"119".toList, "12".toList,
        ⟨315537897600, 0, 0, by decide, by decide, by decide⟩, []⟩
      = "# Congress.gov Daily Digest\n\n**Issue:** 12\n**PublishDate:** ".toList
        ++ "10000-01-01".toList ++ "\n".toList := by decide
  refine ⟨by decide, by decide, by decide, ?_⟩
  rintro ⟨date, hd, he⟩
  rw [hf] at he
  have h1 := List.append_cancel_right he
  have h2 := List.append_cancel_left h1
  rw [← h2] at hd
  exact absurd hd (by decide)

/-- C9 (amended): `FormatDigest` returns the title line, an empty line, the issue
line, the publish-date line and, exactly when `PDFUrl` is not empty, the PDF line.
The date is "(unknown date)" for the zero time and otherwise the year, a hyphen, the
month in two digits, a hyphen and the day in two digits, of the Gregorian date of
the absolute day of the time in its location (the day of the seconds plus offset
when the 64-bit count does not wrap). The year has its four digits when it lies
between 0 and 9999 and exactly then the text has the form YYYY-MM-DD; a negative
year starts with a minus sign and a year above 9999 has five digits or more. -/
theorem C9_format_digest_layout (d : DailyDigest) :
    FormatDigest d
        = "# Congress.gov Daily Digest\n\n".toList
          ++ "**Issue:** ".toList ++ d.Issue ++ "\n".toList
          ++ "**PublishDate:** ".toList
          ++ (if d.PublishDate.IsZero then "(unknown date)".toList else d.PublishDate.Format)
          ++ "\n".toList
          ++ (if d.PDFUrl = [] then [] else "**PDFUrl:** ".toList ++ d.PDFUrl ++ "\n".toList)
      ∧ d.PublishDate.Format
        = appendInt d.PublishDate.Date.1 4
          ++ ['-', digit (d.PublishDate.Date.2.1 / 10), digit (d.PublishDate.Date.2.1 % 10), '-',
              digit (d.PublishDate.Date.2.2 / 10), digit (d.PublishDate.Date.2.2 % 10)]
      ∧ (1 ≤ d.PublishDate.Date.2.1 ∧ d.PublishDate.Date.2.1 ≤ 12
          ∧ 1 ≤ d.PublishDate.Date.2.2
          ∧ d.PublishDate.Date.2.2 ≤ daysIn d.PublishDate.Date.1 d.PublishDate.Date.2.1
          ∧ dayNumber d.PublishDate.Date.1 d.PublishDate.Date.2.1 d.PublishDate.Date.2.2
              = ((d.PublishDate.abs / 86400 : Nat) : Int) - 106751990354238)
      ∧ (d.PublishDate.sec + d.PublishDate.offset < -9223371966606163200
          ∨ 9223372107103388416 ≤ d.PublishDate.sec + d.PublishDate.offset
          ∨ ((d.PublishDate.abs / 86400 : Nat) : Int) - 106751990354238
              = (d.PublishDate.sec + d.PublishDate.offset) / 86400)
      ∧ (isYMD d.PublishDate.Format = true
          ↔ 0 ≤ d.PublishDate.Date.1 ∧ d.PublishDate.Date.1 ≤ 9999)
      ∧ (d.PublishDate.Date.1 < 0 ∨ 9999 < d.PublishDate.Date.1
          ∨ appendInt d.PublishDate.Date.1 4
              = [digit (d.PublishDate.Date.1 / 1000), digit (d.PublishDate.Date.1 / 100 % 10),
                  digit (d.PublishDate.Date.1 / 10 % 10), digit (d.PublishDate.Date.1 % 10)])
      ∧ (0 ≤ d.PublishDate.Date.1 ∨ ∃ r : Str, appendInt d.PublishDate.Date.1 4 = '-' :: r)
      ∧ (d.PublishDate.Date.1 ≤ 9999 ∨ 5 ≤ (appendInt d.PublishDate.Date.1 4).length)
      ∧ FormatDigest ⟨"119".toList, "12".toList,
            ⟨63844848000, 0, 0, by decide, by decide, by decide⟩, "u".toList⟩
          = ("# Congress.gov Daily Digest\n\n**Issue:** 12\n"
              ++ "**PublishDate:** 2024-03-01\n**PDFUrl:** u\n").toList
      ∧ FormatDigest ⟨"119".toList, "12".toList,
            ⟨63844847999, 999999999, 0, by decide, by decide, by decide⟩, []⟩
          = "# Congress.gov Daily Digest\n\n**Issue:** 12\n**PublishDate:** 2024-02-29\n".toList
      ∧ FormatDigest ⟨"119".toList, "12".toList,
            ⟨63844847999, 0, 3600, by decide, by decide, by decide⟩, []⟩
          = "# Congress.gov Daily Digest\n\n**Issue:** 12\n**PublishDate:** 2024-03-01\n".toList
      ∧ FormatDigest ⟨"119".toList, "12".toList,
            ⟨0, 0, 0, by decide, by decide, by decide⟩, []⟩
          = "# Congress.gov Daily Digest\n\n**Issue:** 12\n**PublishDate:** (unknown date)\n".toList
      ∧ FormatDigest ⟨"119".toList, "12".toList,
            ⟨0, 1, 0, by decide, by decide, by decide⟩, []⟩
          = "# Congress.gov Daily Digest\n\n**Issue:** 12\n**PublishDate:** 0001-01-01\n".toList
      ∧ FormatDigest ⟨"119".toList, "12".toList,
            ⟨-1, 0, 0, by decide, by decide, by decide⟩, []⟩
          = "# Congress.gov Daily Digest\n\n**Issue:** 12\n**PublishDate:** 0000-12-31\n".toList
      ∧ FormatDigest ⟨"119".toList, "12".toList,
            ⟨-31622401, 0, 0, by decide, by decide, by decide⟩, []⟩
          = "# Congress.gov Daily Digest\n\n**Issue:** 12\n**PublishDate:** -0001-12-31\n".toList
      ∧ FormatDigest ⟨"119".toList, "12".toList,
            ⟨-9223371974719179008, 0, 0, by decide, by decide, by decide⟩, []⟩
          = ("# Congress.gov Daily Digest\n\n**Issue:** 12\n"
              ++ "**PublishDate:** 292277026596-12-04\n").toList := by
  refine ⟨FormatDigest_eq d, Format_eq d.PublishDate, Date_spec d.PublishDate, ?_,
    isYMD_Format d.PublishDate, ?_, ?_, ?_,
    by decide, by decide, by decide, by decide, by decide, by decide, by decide, by decide⟩
  · by_cases h0 : d.PublishDate.sec + d.PublishDate.offset < -9223371966606163200
    · exact Or.inl h0
    · by_cases h1 : 9223372107103388416 ≤ d.PublishDate.sec + d.PublishDate.offset
      · exact Or.inr (Or.inl h1)
      · exact Or.inr (Or.inr (abs_no_wrap _ (by omega) (by omega)))
  · by_cases h0 : d.PublishDate.Date.1 < 0
    · exact Or.inl h0
    · by_cases h1 : 9999 < d.PublishDate.Date.1
      · exact Or.inr (Or.inl h1)
      · exact Or.inr (Or.inr (appendInt_four _ (by omega) (by omega)))
  · by_cases h0 : 0 ≤ d.PublishDate.Date.1
    · exact Or.inl h0
    · exact Or.inr (appendInt_negative _ 4 (by omega))
  · by_cases h1 : d.PublishDate.Date.1 ≤ 9999
    · exact Or.inl h1
    · exact Or.inr (appendInt_large _ (by omega))

end CongressDigest
